import Mathlib

/-!
# Verification of the Knight's Tour solver (`Horse/Horse.py`)

Shallow embedding of the `KnightsTour` class from `src/Horse/Horse.py`
(the richer of the two near-identical variants; `src/Horse.py` contains the
same board model, move ordering and backtracking search minus the timeout
and statistics).

Modelling decisions:
* Python `int` board cells and move numbers become `Int` (the sentinel
  `UNVISITED = -1` is negative).
* The mutable `self` object becomes an explicit `KnightsTour` record that is
  threaded through every operation.
* The wall-clock timeout test `time.time() - self.start_time >
  self.timeout_limit` at the top of `solve_recursive` is abstracted by a
  boolean oracle consulted once per recursive entry, indexed by the running
  `total_attempts` counter (which increases by exactly one per entry, right
  after the check): `oracle n = true` means the clock has exceeded the
  budget at the `n`-th check.  A raised `TimeoutError` becomes the
  `Except.error` branch, caught in `solve` exactly as the Python `except`.
* Python recursion needs no fuel; the Lean function takes a fuel argument.
  `solve` passes `height*width + 1`, which is strictly larger than the
  deepest possible chain of nested calls (every nested call first marks one
  previously `UNVISITED` cell of the `height*width`-cell board), so the
  fuel-exhaustion branch is unreachable from `solve`; the invariant lemmas
  below carry the corresponding arithmetic bound.
* `verbose` printing, logging and the float `time_elapsed` statistic are
  pure I/O and are omitted from the record.
-/

/-- `UNVISITED = -1` from `Horse/Horse.py`. -/
def UNVISITED : Int := -1

/-- `START_POSITION = 1` from `Horse/Horse.py`. -/
def START_POSITION : Int := 1

/-- The fixed list of 8 knight offsets, in source order. -/
def KNIGHT_MOVES : List (Int × Int) :=
  [(2, 1), (1, 2), (-1, 2), (-2, 1), (-2, -1), (-1, -2), (1, -2), (2, -1)]

/-- `Board = List[List[int]]`. -/
abbrev Board := List (List Int)

/-- The solver state: the fields of the Python `KnightsTour` instance
(`board`, `best_state`, `stats`), with the purely-I/O fields omitted. -/
structure KnightsTour where
  height : Nat
  width : Nat
  board : Board
  best_board : Board
  best_moves_count : Int
  backtracks : Nat
  max_depth : Nat
  total_attempts : Nat
  timeout_occurred : Bool
deriving Repr, DecidableEq

/-- Reading `board[x][y]`.  The Python code only ever reads in bounds
(guarded by `is_safe`), so the out-of-bounds default is irrelevant. -/
def getCell (b : Board) (x y : Int) : Int :=
  (b.getD x.toNat []).getD y.toNat UNVISITED

/-- Writing `board[x][y] = v`.  Again only ever applied in bounds. -/
def setCell (b : Board) (x y : Int) (v : Int) : Board :=
  b.set x.toNat ((b.getD x.toNat []).set y.toNat v)

/-- The freshly initialised solver built by `KnightsTour.__init__` after its
dimension checks pass: an all-`UNVISITED` board, an all-`UNVISITED` best
board with `moves_count = START_POSITION`, and zeroed statistics. -/
def fresh (height width : Int) : KnightsTour :=
  { height := height.toNat
    width := width.toNat
    board := List.replicate height.toNat (List.replicate width.toNat UNVISITED)
    best_board := List.replicate height.toNat (List.replicate width.toNat UNVISITED)
    best_moves_count := START_POSITION
    backtracks := 0
    max_depth := 0
    total_attempts := 0
    timeout_occurred := false }

/-- `KnightsTour.__init__`: raises `ValueError` when `height < 3 or
width < 3`, before any board is allocated (the `raise` precedes every
assignment, so the error branch carries no state at all). -/
def mkSolver (height width : Int) : Except String KnightsTour :=
  if height < 3 ∨ width < 3 then
    Except.error "Wymiary planszy musza byc >= 3x3"
  else
    Except.ok (fresh height width)

/-- `KnightsTour.is_safe`: in bounds and unvisited.  The Python `and` chain
short-circuits, so the cell is only read in bounds. -/
def is_safe (s : KnightsTour) (x y : Int) : Prop :=
  0 ≤ x ∧ x < (s.height : Int) ∧ 0 ≤ y ∧ y < (s.width : Int) ∧
    getCell s.board x y = UNVISITED

instance (s : KnightsTour) (x y : Int) : Decidable (is_safe s x y) := by
  unfold is_safe; infer_instance

/-- `KnightsTour.count_onward_moves`: Warnsdorff degree of `(x, y)`. -/
def count_onward_moves (s : KnightsTour) (x y : Int) : Int :=
  KNIGHT_MOVES.foldl
    (fun count d => if is_safe s (x + d.1) (y + d.2) then count + 1 else count) 0

/-- Lexicographic order on `(degree, next_x, next_y)` triples: Python's
`sorted` compares tuples componentwise. -/
def tripleLe (a b : Int × Int × Int) : Prop :=
  a.1 < b.1 ∨ (a.1 = b.1 ∧ (a.2.1 < b.2.1 ∨ (a.2.1 = b.2.1 ∧ a.2.2 ≤ b.2.2)))

instance : DecidableRel tripleLe := fun a b => by
  unfold tripleLe; infer_instance

instance : IsTotal (Int × Int × Int) tripleLe :=
  ⟨by intro a b; unfold tripleLe; omega⟩

instance : IsTrans (Int × Int × Int) tripleLe :=
  ⟨by intro a b c; unfold tripleLe; omega⟩

/-- The unsorted candidate list built by the loop in
`KnightsTour.get_possible_moves`: for each offset in source order, the safe
candidates paired with their onward degree. -/
def rawMoves (s : KnightsTour) (x y : Int) : List (Int × Int × Int) :=
  KNIGHT_MOVES.filterMap fun d =>
    let next_x := x + d.1
    let next_y := y + d.2
    if is_safe s next_x next_y then
      some (count_onward_moves s next_x next_y, next_x, next_y)
    else none

/-- `KnightsTour.get_possible_moves`: the candidate list passed through
Python's `sorted`, i.e. sorted by the lexicographic tuple order.  (Any
stable comparison sort computes the same list; `insertionSort` is one.) -/
def get_possible_moves (s : KnightsTour) (x y : Int) : List (Int × Int × Int) :=
  List.insertionSort tripleLe (rawMoves s x y)

/-- `KnightsTour.update_best_state`: on strict improvement, record the move
count and copy the whole board (the Python row-by-row copy over
`range(height)` copies the whole board, whose row count is `height`). -/
def update_best_state (s : KnightsTour) (move_num : Int) : KnightsTour :=
  if move_num > s.best_moves_count then
    { s with best_moves_count := move_num, best_board := s.board }
  else s

/-- The `for _, next_x, next_y in self.get_possible_moves(x, y)` loop of
`solve_recursive`, abstracted over the recursive call (`recurse` is applied
to the state after placing the move and to the candidate's coordinates; the
caller fixes `move_num + 1` and `depth + 1` inside it): place the move,
update the best state, recurse; on failure restore the cell and count a
backtrack; a `TimeoutError` (`Except.error`) propagates without restoring. -/
def try_moves (recurse : KnightsTour → Int → Int → Except Unit Bool × KnightsTour)
    (moves : List (Int × Int × Int)) (s : KnightsTour) (move_num : Int) :
    Except Unit Bool × KnightsTour :=
  match moves with
  | [] => (Except.ok false, s)
  | (_, next_x, next_y) :: rest =>
    let s1 := { s with board := setCell s.board next_x next_y move_num }
    let s2 := update_best_state s1 move_num
    match recurse s2 next_x next_y with
    | (Except.ok true, s3) => (Except.ok true, s3)
    | (Except.ok false, s3) =>
      try_moves recurse rest
        { s3 with board := setCell s3.board next_x next_y UNVISITED,
                  backtracks := s3.backtracks + 1 }
        move_num
    | (Except.error e, s3) => (Except.error e, s3)

/-- `KnightsTour.solve_recursive`: timeout check, statistics update,
completion test, then the candidate loop (`try_moves`).  Structural in the
fuel argument so that it evaluates by kernel reduction. -/
def solve_recursive (oracle : Nat → Bool) : Nat → KnightsTour → Int → Int →
    Int → Nat → Except Unit Bool × KnightsTour
  | 0, s, _, _, _, _ => (Except.ok false, s)
  | fuel + 1, s, x, y, move_num, depth =>
    if oracle s.total_attempts then
      (Except.error (), { s with timeout_occurred := true })
    else
      let s1 := { s with max_depth := max s.max_depth depth,
                         total_attempts := s.total_attempts + 1 }
      if move_num = (s1.height : Int) * (s1.width : Int) + 1 then
        (Except.ok true, s1)
      else
        try_moves
          (fun s2 next_x next_y =>
            solve_recursive oracle fuel s2 next_x next_y (move_num + 1) (depth + 1))
          (get_possible_moves s1 x y) s1 move_num

/-- `KnightsTour.solve`: bounds check (raising `ValueError` before touching
any state), start placement, best-state update, recursive search with the
`TimeoutError` caught and turned into `False`. -/
def solve (oracle : Nat → Bool) (s : KnightsTour) (start_x start_y : Int) :
    Except String Bool × KnightsTour :=
  if 0 ≤ start_x ∧ start_x < (s.height : Int) ∧ 0 ≤ start_y ∧ start_y < (s.width : Int) then
    let s1 := { s with board := setCell s.board start_x start_y START_POSITION }
    let s2 := update_best_state s1 START_POSITION
    match solve_recursive oracle (s2.height * s2.width + 1) s2 start_x start_y
        (START_POSITION + 1) 0 with
    | (Except.ok b, s3) => (Except.ok b, s3)
    | (Except.error _, s3) => (Except.ok false, s3)
  else
    (Except.error "Pozycja startowa poza plansza", s)

/-! ## Generic list lemmas used by the board reasoning -/

theorem getD_set_self {α : Type} (l : List α) (i : Nat) (v d : α) (h : i < l.length) :
    (l.set i v).getD i d = v := by
  induction l generalizing i with
  | nil => simp at h
  | cons a t ih =>
    cases i with
    | zero => simp
    | succ k =>
      simp only [List.set, List.getD_cons_succ]
      exact ih k (by simpa using h)

theorem getD_set_ne {α : Type} (l : List α) (i j : Nat) (v d : α) (h : i ≠ j) :
    (l.set i v).getD j d = l.getD j d := by
  induction l generalizing i j with
  | nil => simp
  | cons a t ih =>
    cases i with
    | zero =>
      cases j with
      | zero => exact absurd rfl h
      | succ k => simp
    | succ k =>
      cases j with
      | zero => simp
      | succ k' =>
        simp only [List.set, List.getD_cons_succ]
        exact ih k k' (by omega)

theorem set_getD_id {α : Type} (l : List α) (i : Nat) (d : α) (h : i < l.length) :
    l.set i (l.getD i d) = l := by
  induction l generalizing i with
  | nil => simp at h
  | cons a t ih =>
    cases i with
    | zero => simp
    | succ k =>
      simp only [List.getD_cons_succ, List.set]
      rw [ih k (by simpa using h)]

theorem mem_set_cases {α : Type} (l : List α) (i : Nat) (v a : α)
    (h : a ∈ l.set i v) : a ∈ l ∨ a = v := by
  induction l generalizing i with
  | nil => simp at h
  | cons b t ih =>
    cases i with
    | zero =>
      rcases List.mem_cons.mp h with h1 | h1
      · exact Or.inr h1
      · exact Or.inl (List.mem_cons_of_mem _ h1)
    | succ k =>
      rcases List.mem_cons.mp h with h1 | h1
      · exact Or.inl (h1 ▸ List.mem_cons_self _ _)
      · rcases ih k h1 with h2 | h2
        · exact Or.inl (List.mem_cons_of_mem _ h2)
        · exact Or.inr h2

/-! ## Board invariants: well-formedness and visited-value multisets -/

/-- Well-formed solver state: both boards are `height` lists of
`width`-element rows, as established by `__init__` and preserved by every
in-bounds cell write. -/
def Wf (s : KnightsTour) : Prop :=
  s.board.length = s.height ∧ (∀ row ∈ s.board, row.length = s.width) ∧
    s.best_board.length = s.height ∧ (∀ row ∈ s.best_board, row.length = s.width)

/-- The multiset of visited (non-`UNVISITED`) cell values of a board. -/
def visitedVals (b : Board) : Multiset Int :=
  (b.flatten.filter (fun v => v ≠ UNVISITED) : List Int)

/-- The multiset `{1, 2, ..., m-1}` of move numbers placed when the search
is about to place move `m`. -/
def pathVals (m : Int) : Multiset Int :=
  ((List.range (m - 1).toNat).map (fun i : Nat => (i : Int) + 1) : List Int)

theorem pathVals_one : pathVals 1 = 0 := rfl

theorem pathVals_succ (m : Int) (h : 1 ≤ m) : pathVals (m + 1) = pathVals m + {m} := by
  unfold pathVals
  have h1 : (m + 1 - 1).toNat = (m - 1).toNat + 1 := by omega
  rw [h1, List.range_succ, List.map_append, ← Multiset.coe_add]
  congr 1
  have h2 : (((m - 1).toNat : Int) + 1) = m := by omega
  rw [List.map_cons, List.map_nil, h2]
  rfl

theorem mem_pathVals (k m : Int) : k ∈ pathVals m ↔ 1 ≤ k ∧ k ≤ m - 1 := by
  unfold pathVals
  simp only [Multiset.mem_coe, List.mem_map, List.mem_range]
  constructor
  · rintro ⟨i, hi, rfl⟩; omega
  · rintro ⟨h1, h2⟩
    exact ⟨(k - 1).toNat, by omega, by omega⟩

theorem nodup_pathVals (m : Int) : (pathVals m).Nodup := by
  unfold pathVals
  rw [Multiset.coe_nodup]
  exact (List.nodup_range _).map (fun a b hab => by omega)

theorem count_one_pathVals (m : Int) (h : 2 ≤ m) :
    Multiset.count 1 (pathVals m) = 1 :=
  Multiset.count_eq_one_of_mem (nodup_pathVals m) ((mem_pathVals 1 m).mpr (by omega))

/-- Filtered-multiset effect of overwriting an `UNVISITED` entry of a row
with a visited value. -/
theorem filter_set_row_add (l : List Int) (j : Nat) (v : Int)
    (hj : j < l.length) (hold : l.getD j UNVISITED = UNVISITED) (hv : v ≠ UNVISITED) :
    ((l.set j v).filter (fun a => a ≠ UNVISITED) : Multiset Int)
      = (l.filter (fun a => a ≠ UNVISITED) : Multiset Int) + {v} := by
  induction l generalizing j with
  | nil => simp at hj
  | cons a t ih =>
    cases j with
    | zero =>
      simp only [List.getD_cons_zero] at hold
      subst hold
      simp [List.filter_cons, hv, ← Multiset.cons_coe, ← Multiset.singleton_add,
        add_comm]
    | succ k =>
      have ht := ih k (by simpa using hj) (by simpa using hold)
      by_cases ha : a = UNVISITED
      · subst ha
        simpa [List.set, List.filter_cons] using ht
      · have e1 : ∀ l : List Int, (a :: l).filter (fun x => x ≠ UNVISITED)
            = a :: l.filter (fun x => x ≠ UNVISITED) := fun l => by
          simp [List.filter_cons, ha]
        simp only [List.set, e1]
        rw [← Multiset.cons_coe, ← Multiset.cons_coe, ht, Multiset.cons_add]

theorem getD_mem {α : Type} (l : List α) (i : Nat) (d : α) (h : i < l.length) :
    l.getD i d ∈ l := by
  induction l generalizing i with
  | nil => simp at h
  | cons a t ih =>
    cases i with
    | zero => simp
    | succ k => exact List.mem_cons_of_mem _ (ih k (by simpa using h))

theorem visitedVals_cons (r : List Int) (bs : Board) :
    visitedVals (r :: bs) = (r.filter (fun x => x ≠ UNVISITED) : List Int) + visitedVals bs := by
  simp [visitedVals, List.flatten_cons, List.filter_append, ← Multiset.coe_add]

/-- Writing a visited value over an `UNVISITED` in-bounds cell adds exactly
that value to the visited multiset. -/
theorem visitedVals_set_row (b : Board) (i j : Nat) (v : Int)
    (hi : i < b.length) (hj : j < (b.getD i []).length)
    (hold : (b.getD i []).getD j UNVISITED = UNVISITED) (hv : v ≠ UNVISITED) :
    visitedVals (b.set i ((b.getD i []).set j v)) = visitedVals b + {v} := by
  induction b generalizing i with
  | nil => simp at hi
  | cons r bs ih =>
    cases i with
    | zero =>
      simp only [List.getD_cons_zero] at hj hold
      simp only [List.getD_cons_zero, List.set, visitedVals_cons,
        filter_set_row_add r j v hj hold hv]
      abel
    | succ k =>
      simp only [List.getD_cons_succ] at hj hold
      have := ih k (by simpa using hi) hj hold
      simp only [List.getD_cons_succ, List.set, visitedVals_cons, this]
      abel

theorem visitedVals_setCell_add (b : Board) (x y v : Int)
    (hx : x.toNat < b.length) (hy : y.toNat < (b.getD x.toNat []).length)
    (hold : getCell b x y = UNVISITED) (hv : v ≠ UNVISITED) :
    visitedVals (setCell b x y v) = visitedVals b + {v} :=
  visitedVals_set_row b x.toNat y.toNat v hx hy hold hv

/-- Backtracking: resetting the just-written cell to `UNVISITED` restores
the board exactly. -/
theorem setCell_restore (b : Board) (x y v : Int)
    (hx : x.toNat < b.length) (hy : y.toNat < (b.getD x.toNat []).length)
    (hold : getCell b x y = UNVISITED) :
    setCell (setCell b x y v) x y UNVISITED = b := by
  unfold setCell getCell at *
  rw [getD_set_self _ _ _ _ hx, List.set_set, List.set_set]
  have h1 := set_getD_id (b.getD x.toNat []) y.toNat UNVISITED hy
  rw [hold] at h1
  rw [h1, set_getD_id _ _ _ hx]

theorem getCell_setCell_self (b : Board) (x y v : Int)
    (hx : x.toNat < b.length) (hy : y.toNat < (b.getD x.toNat []).length) :
    getCell (setCell b x y v) x y = v := by
  unfold getCell setCell
  rw [getD_set_self _ _ _ _ hx, getD_set_self _ _ _ _ hy]

theorem getCell_setCell_ne (b : Board) (x y x' y' v : Int)
    (hx : x.toNat < b.length)
    (hne : x.toNat ≠ x'.toNat ∨ y.toNat ≠ y'.toNat) :
    getCell (setCell b x y v) x' y' = getCell b x' y' := by
  unfold getCell setCell
  rcases hne with h | h
  · rw [getD_set_ne _ _ _ _ _ h]
  · by_cases hxx : x.toNat = x'.toNat
    · rw [← hxx, getD_set_self _ _ _ _ hx, getD_set_ne _ _ _ _ _ h]
    · rw [getD_set_ne _ _ _ _ _ hxx]

theorem length_setCell (b : Board) (x y v : Int) :
    (setCell b x y v).length = b.length := by
  simp [setCell]

theorem rows_setCell (b : Board) (x y v : Int) (w : Nat)
    (hrows : ∀ row ∈ b, row.length = w) (hx : x.toNat < b.length) :
    ∀ row ∈ setCell b x y v, row.length = w := by
  intro row hrow
  rcases mem_set_cases _ _ _ _ hrow with h | h
  · exact hrows row h
  · subst h
    rw [List.length_set]
    exact hrows _ (getD_mem b x.toNat [] hx)

/-! ## Structural facts about the search (no board invariant needed) -/

@[simp] theorem update_best_height (s : KnightsTour) (m : Int) :
    (update_best_state s m).height = s.height := by
  unfold update_best_state; split <;> rfl

@[simp] theorem update_best_width (s : KnightsTour) (m : Int) :
    (update_best_state s m).width = s.width := by
  unfold update_best_state; split <;> rfl

@[simp] theorem update_best_board (s : KnightsTour) (m : Int) :
    (update_best_state s m).board = s.board := by
  unfold update_best_state; split <;> rfl

@[simp] theorem update_best_backtracks (s : KnightsTour) (m : Int) :
    (update_best_state s m).backtracks = s.backtracks := by
  unfold update_best_state; split <;> rfl

@[simp] theorem update_best_max_depth (s : KnightsTour) (m : Int) :
    (update_best_state s m).max_depth = s.max_depth := by
  unfold update_best_state; split <;> rfl

@[simp] theorem update_best_total_attempts (s : KnightsTour) (m : Int) :
    (update_best_state s m).total_attempts = s.total_attempts := by
  unfold update_best_state; split <;> rfl

@[simp] theorem update_best_timeout (s : KnightsTour) (m : Int) :
    (update_best_state s m).timeout_occurred = s.timeout_occurred := by
  unfold update_best_state; split <;> rfl

theorem update_best_le (s : KnightsTour) (m : Int) :
    s.best_moves_count ≤ (update_best_state s m).best_moves_count := by
  unfold update_best_state; split
  · rename_i h; exact le_of_lt h
  · exact le_rfl

/-- Either the best state is untouched (no strict improvement) or it is
overwritten with the current board and move count. -/
theorem update_best_cases (s : KnightsTour) (m : Int) :
    (update_best_state s m = s ∧ m ≤ s.best_moves_count) ∨
      ((update_best_state s m).best_moves_count = m ∧
        (update_best_state s m).best_board = s.board ∧ s.best_moves_count < m) := by
  unfold update_best_state
  split
  · right; exact ⟨rfl, rfl, by omega⟩
  · left; exact ⟨rfl, by omega⟩

/-- Structural relation between the state at entry and at exit of the
search: dimensions preserved, statistics and best count monotone, and the
timeout flag set exactly on the `TimeoutError` path. -/
def StructOut (s t : KnightsTour) (r : Except Unit Bool) : Prop :=
  t.height = s.height ∧
  t.width = s.width ∧
  s.total_attempts ≤ t.total_attempts ∧
  s.backtracks ≤ t.backtracks ∧
  s.max_depth ≤ t.max_depth ∧
  s.best_moves_count ≤ t.best_moves_count ∧
  (∀ bb : Bool, r = Except.ok bb → t.timeout_occurred = s.timeout_occurred) ∧
  (r = Except.error () → t.timeout_occurred = true)

/-- Monotone state evolution along the non-timeout part of the search. -/
def Step (s t : KnightsTour) : Prop :=
  t.height = s.height ∧
  t.width = s.width ∧
  s.total_attempts ≤ t.total_attempts ∧
  s.backtracks ≤ t.backtracks ∧
  s.max_depth ≤ t.max_depth ∧
  s.best_moves_count ≤ t.best_moves_count ∧
  t.timeout_occurred = s.timeout_occurred

theorem Step.refl (s : KnightsTour) : Step s s :=
  ⟨rfl, rfl, le_rfl, le_rfl, le_rfl, le_rfl, rfl⟩

theorem Step.trans {s t u : KnightsTour} (h1 : Step s t) (h2 : Step t u) : Step s u := by
  obtain ⟨a1, a2, a3, a4, a5, a6, a7⟩ := h1
  obtain ⟨b1, b2, b3, b4, b5, b6, b7⟩ := h2
  exact ⟨b1.trans a1, b2.trans a2, a3.trans b3, a4.trans b4, a5.trans b5,
    a6.trans b6, b7.trans a7⟩

theorem StructOut.of_step {s u t : KnightsTour} {r : Except Unit Bool}
    (h : Step s u) (h2 : StructOut u t r) : StructOut s t r := by
  obtain ⟨a1, a2, a3, a4, a5, a6, a7⟩ := h
  obtain ⟨b1, b2, b3, b4, b5, b6, b7, b8⟩ := h2
  exact ⟨b1.trans a1, b2.trans a2, a3.trans b3, a4.trans b4, a5.trans b5,
    a6.trans b6, fun bb hbb => (b7 bb hbb).trans a7, b8⟩

theorem StructOut.to_step {s t : KnightsTour} {bb : Bool}
    (h : StructOut s t (Except.ok bb)) : Step s t := by
  obtain ⟨b1, b2, b3, b4, b5, b6, b7, _⟩ := h
  exact ⟨b1, b2, b3, b4, b5, b6, b7 bb rfl⟩

theorem step_place_update (s : KnightsTour) (b : Board) (m : Int) :
    Step s (update_best_state { s with board := b } m) := by
  refine ⟨by simp, by simp, by simp, by simp, by simp, ?_, by simp⟩
  exact update_best_le { s with board := b } m

theorem step_stats (s : KnightsTour) (d : Nat) :
    Step s { s with max_depth := max s.max_depth d,
                    total_attempts := s.total_attempts + 1 } :=
  ⟨rfl, rfl, by simp, le_rfl, by simp [le_max_left], le_rfl, rfl⟩

theorem step_backtrack (s : KnightsTour) (b : Board) :
    Step s { s with board := b, backtracks := s.backtracks + 1 } :=
  ⟨rfl, rfl, le_rfl, by simp, le_rfl, le_rfl, rfl⟩

/-- Structural facts for `try_moves`, given the corresponding facts for the
recursive call it is handed. -/
theorem struct_try (recurse : KnightsTour → Int → Int → Except Unit Bool × KnightsTour)
    (hrec : ∀ s' nx ny, StructOut s' (recurse s' nx ny).2 (recurse s' nx ny).1) :
    ∀ moves s m, StructOut s (try_moves recurse moves s m).2
      (try_moves recurse moves s m).1 := by
  intro moves
  induction moves with
  | nil =>
    intro s m
    simp only [try_moves]
    exact ⟨rfl, rfl, le_rfl, le_rfl, le_rfl, le_rfl, fun _ _ => rfl, by simp⟩
  | cons mv rest ih =>
    intro s m
    obtain ⟨deg, nx, ny⟩ := mv
    have hstep : Step s (update_best_state
        { s with board := setCell s.board nx ny m } m) :=
      step_place_update s _ m
    have H3 := hrec (update_best_state { s with board := setCell s.board nx ny m } m)
      nx ny
    rcases hin : recurse (update_best_state
        { s with board := setCell s.board nx ny m } m) nx ny with ⟨r3, s3⟩
    rw [hin] at H3
    simp only [try_moves, hin]
    match r3, H3 with
    | Except.ok true, H3 =>
      exact .of_step hstep H3
    | Except.ok false, H3 =>
      have hrest := ih { s3 with
        board := setCell s3.board nx ny UNVISITED,
        backtracks := s3.backtracks + 1 } m
      exact .of_step (((hstep.trans H3.to_step).trans (step_backtrack s3 _))) hrest
    | Except.error e, H3 =>
      exact .of_step hstep H3

/-- Structural facts for `solve_recursive`, all fuels. -/
theorem struct_rec (oracle : Nat → Bool) : ∀ fuel s x y m d,
    StructOut s (solve_recursive oracle fuel s x y m d).2
      (solve_recursive oracle fuel s x y m d).1 := by
  intro fuel
  induction fuel with
  | zero =>
    intro s x y m d
    simp only [solve_recursive]
    exact ⟨rfl, rfl, le_rfl, le_rfl, le_rfl, le_rfl, fun _ _ => rfl, by simp⟩
  | succ f ih =>
    intro s x y m d
    simp only [solve_recursive]
    by_cases ho : oracle s.total_attempts
    · simp only [ho, if_true]
      exact ⟨rfl, rfl, le_rfl, le_rfl, le_rfl, le_rfl, by simp, fun _ => rfl⟩
    · simp only [ho, if_false, Bool.false_eq_true]
      split
      · exact ⟨rfl, rfl, by simp, le_rfl, by simp [le_max_left], le_rfl,
          fun _ _ => rfl, by simp⟩
      · exact .of_step (step_stats s d)
          (struct_try _ (fun s' nx ny => ih s' nx ny (m + 1) (d + 1)) _ _ _)

/-! ## The board/best-state invariant carried through the search -/

/-- The number of board cells, as an integer. -/
def area (s : KnightsTour) : Int := (s.height : Int) * (s.width : Int)

theorem area_congr {s t : KnightsTour} (hh : t.height = s.height)
    (hw : t.width = s.width) : area t = area s := by
  simp [area, hh, hw]

/-- Invariant of the best state: either never updated (still the initial
`moves_count = START_POSITION = 1` with an all-`UNVISITED` board) or a
snapshot taken right after placing its recorded move count, so its visited
values are exactly `1..best_moves_count`. -/
def BestInv (s : KnightsTour) : Prop :=
  (s.best_moves_count = 1 ∧ visitedVals s.best_board = 0) ∨
    (2 ≤ s.best_moves_count ∧
      visitedVals s.best_board = pathVals (s.best_moves_count + 1))

/-- Safety of a move candidate list relative to a state's board: every listed
candidate is in bounds and unvisited.  `get_possible_moves` only emits such
candidates. -/
def MovesSafe (s : KnightsTour) (moves : List (Int × Int × Int)) : Prop :=
  ∀ deg nx ny, (deg, nx, ny) ∈ moves →
    0 ≤ nx ∧ nx < (s.height : Int) ∧ 0 ≤ ny ∧ ny < (s.width : Int) ∧
      getCell s.board nx ny = UNVISITED

theorem mem_get_possible_moves {s : KnightsTour} {x y deg nx ny : Int}
    (h : (deg, nx, ny) ∈ get_possible_moves s x y) :
    is_safe s nx ny ∧ deg = count_onward_moves s nx ny ∧
      ∃ d ∈ KNIGHT_MOVES, nx = x + d.1 ∧ ny = y + d.2 := by
  rw [get_possible_moves, List.mem_insertionSort, rawMoves, List.mem_filterMap] at h
  obtain ⟨d, hd, hsome⟩ := h
  by_cases hs : is_safe s (x + d.1) (y + d.2)
  · rw [if_pos hs, Option.some_inj, Prod.ext_iff, Prod.ext_iff] at hsome
    obtain ⟨h1, h2, h3⟩ := hsome
    simp only at h1 h2 h3
    subst h1 h2 h3
    exact ⟨hs, rfl, ⟨d, hd, rfl, rfl⟩⟩
  · simp [hs] at hsome

theorem movesSafe_get_possible (s : KnightsTour) (x y : Int) :
    MovesSafe s (get_possible_moves s x y) := by
  intro deg nx ny h
  exact (mem_get_possible_moves h).1

theorem wf_update_best {s : KnightsTour} (m : Int) (h : Wf s) :
    Wf (update_best_state s m) := by
  obtain ⟨h1, h2, h3, h4⟩ := h
  unfold update_best_state
  split
  · exact ⟨h1, h2, h1, h2⟩
  · exact ⟨h1, h2, h3, h4⟩

/-- Entry hypotheses of the invariant lemma for `solve_recursive`: a
well-formed state whose board carries exactly the moves `1..m-1` and a valid
best state.  While the board is not yet full (`m ≤ area`) the best count is
strictly below `area`; in the saturated call (`m = area + 1`) it equals
`area` (set by the caller that placed move `area`). -/
def RecHyp (s : KnightsTour) (m : Int) : Prop :=
  Wf s ∧ visitedVals s.board = pathVals m ∧ BestInv s ∧
    2 ≤ m ∧ m ≤ area s + 1 ∧
    (m ≤ area s → s.best_moves_count < area s) ∧
    (m = area s + 1 → s.best_moves_count = area s)

/-- Exit facts of the invariant lemma for `solve_recursive`. -/
def RecOut (s : KnightsTour) (m : Int) (r : Except Unit Bool) (t : KnightsTour) : Prop :=
  Wf t ∧
  (r = Except.ok true → visitedVals t.board = pathVals (area s + 1) ∧ BestInv t ∧
    (m ≤ area s → t.best_moves_count = area s ∧ t.best_board = t.board) ∧
    (m = area s + 1 → t.board = s.board ∧
      t.best_moves_count = s.best_moves_count ∧ t.best_board = s.best_board)) ∧
  (r = Except.ok false → t.board = s.board ∧ BestInv t ∧ t.best_moves_count < area s) ∧
  (r = Except.error () → BestInv t ∧
    ∃ k, m ≤ k ∧ k ≤ area s + 1 ∧ visitedVals t.board = pathVals k)

/-- Entry hypotheses of the invariant lemma for `try_moves`. -/
def TryHyp (s : KnightsTour) (m : Int)
    (moves : List (Int × Int × Int)) : Prop :=
  Wf s ∧ visitedVals s.board = pathVals m ∧ BestInv s ∧
    2 ≤ m ∧ m ≤ area s ∧ s.best_moves_count < area s ∧ MovesSafe s moves

/-- Exit facts of the invariant lemma for `try_moves`. -/
def TryOut (s : KnightsTour) (m : Int) (r : Except Unit Bool) (t : KnightsTour) : Prop :=
  Wf t ∧
  (r = Except.ok true → visitedVals t.board = pathVals (area s + 1) ∧ BestInv t ∧
    t.best_moves_count = area s ∧ t.best_board = t.board) ∧
  (r = Except.ok false → t.board = s.board ∧ BestInv t ∧ t.best_moves_count < area s) ∧
  (r = Except.error () → BestInv t ∧
    ∃ k, m + 1 ≤ k ∧ k ≤ area s + 1 ∧ visitedVals t.board = pathVals k)

theorem inv_try (recurse : KnightsTour → Int → Int → Except Unit Bool × KnightsTour)
    (m A : Int)
    (hrec : ∀ s' nx ny, area s' = A → RecHyp s' (m + 1) →
      RecOut s' (m + 1) (recurse s' nx ny).1 (recurse s' nx ny).2)
    (hstruct : ∀ s' nx ny, StructOut s' (recurse s' nx ny).2 (recurse s' nx ny).1) :
    ∀ moves s, area s = A → TryHyp s m moves →
      TryOut s m (try_moves recurse moves s m).1
        (try_moves recurse moves s m).2 := by
  intro moves
  induction moves with
  | nil =>
    intro s hAs hyp
    obtain ⟨hwf, hbd, hbi, hm2, hmA, hblt, hsafe⟩ := hyp
    simp only [try_moves]
    exact ⟨hwf, by simp, fun _ => ⟨rfl, hbi, hblt⟩, by simp⟩
  | cons mv rest ih =>
    intro s hAs hyp
    obtain ⟨deg, nx, ny⟩ := mv
    obtain ⟨hwf, hbd, hbi, hm2, hmA, hblt, hsafe⟩ := hyp
    obtain ⟨hnx0, hnxh, hny0, hnyw, hcell⟩ :=
      hsafe deg nx ny (List.mem_cons_self _ _)
    have hxlen : nx.toNat < s.board.length := by rw [hwf.1]; omega
    have hrowlen : (s.board.getD nx.toNat []).length = s.width :=
      hwf.2.1 _ (getD_mem _ _ _ hxlen)
    have hylen : ny.toNat < (s.board.getD nx.toNat []).length := by
      rw [hrowlen]; omega
    have hboard1 : visitedVals (setCell s.board nx ny m) = pathVals (m + 1) := by
      rw [visitedVals_setCell_add s.board nx ny m hxlen hylen hcell
        (by unfold UNVISITED; omega), hbd, ← pathVals_succ m (by omega)]
    simp only [try_moves]
    set s2 := update_best_state { s with board := setCell s.board nx ny m } m with hs2
    have hwf1 : Wf { s with board := setCell s.board nx ny m } := by
      refine ⟨?_, ?_, hwf.2.2.1, hwf.2.2.2⟩
      · show (setCell s.board nx ny m).length = s.height
        rw [length_setCell]; exact hwf.1
      · exact rows_setCell _ _ _ _ _ hwf.2.1 hxlen
    have hwf2 : Wf s2 := wf_update_best m hwf1
    have h2board : s2.board = setCell s.board nx ny m := by
      rw [hs2, update_best_board]
    have hb2 : visitedVals s2.board = pathVals (m + 1) := by
      rw [h2board]; exact hboard1
    have hh2 : s2.height = s.height := by rw [hs2, update_best_height]
    have hw2 : s2.width = s.width := by rw [hs2, update_best_width]
    have hA2 : area s2 = area s := area_congr hh2 hw2
    have hupdref := update_best_cases { s with board := setCell s.board nx ny m } m
    rw [← hs2] at hupdref
    have hbi2 : BestInv s2 := by
      rcases hupdref with ⟨hupd, hle⟩ | ⟨hbm, hbb, hlt2⟩
      · rw [hupd]; exact hbi
      · right
        refine ⟨by omega, ?_⟩
        rw [hbb, hbm]
        exact hboard1
    have hb2cases : s2.best_moves_count = s.best_moves_count ∨
        s2.best_moves_count = m := by
      rcases hupdref with ⟨hupd, _⟩ | ⟨hbm, _, _⟩
      · left; rw [hupd]
      · right; exact hbm
    have hcond1 : m + 1 ≤ area s2 → s2.best_moves_count < area s2 := by
      intro hle
      rw [hA2] at hle ⊢
      rcases hb2cases with hcc | hcc <;> omega
    have hcond2 : m + 1 = area s2 + 1 → s2.best_moves_count = area s2 := by
      intro heq
      rw [hA2] at heq ⊢
      rcases hupdref with ⟨hupd, hle⟩ | ⟨hbm, _, _⟩
      · have hle' : m ≤ s.best_moves_count := hle
        omega
      · omega
    have hrec2 := hrec s2 nx ny (hA2.trans hAs)
      ⟨hwf2, hb2, hbi2, by omega, by rw [hA2]; omega, hcond1, hcond2⟩
    have hstru2 := hstruct s2 nx ny
    split
    · -- inner returned `ok true`: propagate without restoring
      rename_i s3 heq
      rw [heq] at hrec2
      obtain ⟨hwf3, htrue, _, _⟩ := hrec2
      obtain ⟨hv3, hbi3, hcondA, hcondB⟩ := htrue rfl
      rw [hA2] at hv3
      have hbests : s3.best_moves_count = area s ∧ s3.best_board = s3.board := by
        rcases eq_or_lt_of_le hmA with hmeq | hmlt
        · obtain ⟨hbd3, hbc3, hbb3⟩ := hcondB (by rw [hA2]; omega)
          constructor
          · rw [hbc3, hcond2 (by rw [hA2]; omega), hA2]
          · rw [hbb3, hbd3, h2board]
            rcases hupdref with ⟨hupd, hle⟩ | ⟨hbm, hbb, _⟩
            · have hle' : m ≤ s.best_moves_count := hle
              omega
            · rw [hbb]
        · obtain ⟨hbest3, hbb3⟩ := hcondA (by rw [hA2]; omega)
          rw [hA2] at hbest3
          exact ⟨hbest3, hbb3⟩
      exact ⟨hwf3, fun _ => ⟨hv3, hbi3, hbests.1, hbests.2⟩, by simp, by simp⟩
    · -- inner returned `ok false`: restore the cell, continue with `rest`
      rename_i s3 heq
      rw [heq] at hrec2 hstru2
      obtain ⟨hwf3, _, hfalse, _⟩ := hrec2
      obtain ⟨hb3, hbi3, hlt3⟩ := hfalse rfl
      rw [hA2] at hlt3
      have hh3 : s3.height = s.height := hstru2.1.trans hh2
      have hw3 : s3.width = s.width := hstru2.2.1.trans hw2
      have hs3b : s3.board = setCell s.board nx ny m := by rw [hb3, h2board]
      have hrestore : setCell s3.board nx ny UNVISITED = s.board := by
        rw [hs3b]
        exact setCell_restore s.board nx ny m hxlen hylen hcell
      set s4 := { s3 with board := setCell s3.board nx ny UNVISITED, backtracks := s3.backtracks + 1 } with hs4
      have hs4b : s4.board = s.board := hrestore
      have hs4h : s4.height = s.height := hh3
      have hs4w : s4.width = s.width := hw3
      have hA4 : area s4 = area s := area_congr hs4h hs4w
      have hrest := ih s4 (hA4.trans hAs)
        ⟨⟨by rw [hs4b, hs4h]; exact hwf.1,
          by rw [hs4b, hs4w]
             exact fun row hr => hwf.2.1 row hr,
          hwf3.2.2.1, hwf3.2.2.2⟩,
         by rw [hs4b]; exact hbd,
         hbi3,
         hm2,
         by rw [hA4]; exact hmA,
         by rw [hA4]; exact hlt3,
         by
          intro dg ax ay hmem
          obtain ⟨q1, q2, q3, q4, q5⟩ :=
            hsafe dg ax ay (List.mem_cons_of_mem _ hmem)
          refine ⟨q1, ?_, q3, ?_, ?_⟩
          · rw [hs4h]; exact q2
          · rw [hs4w]; exact q4
          · rw [hs4b]; exact q5⟩
      obtain ⟨o1, o2, o3, o4⟩ := hrest
      refine ⟨o1, fun h => ?_, fun h => ?_, fun h => ?_⟩
      · obtain ⟨p1, p2, p3, p4⟩ := o2 h
        rw [hA4] at p1 p3
        exact ⟨p1, p2, p3, p4⟩
      · obtain ⟨p1, p2, p3⟩ := o3 h
        rw [hA4] at p3
        rw [hs4b] at p1
        exact ⟨p1, p2, p3⟩
      · obtain ⟨p1, k, p2, p3, p4⟩ := o4 h
        rw [hA4] at p3
        exact ⟨p1, k, p2, p3, p4⟩
    · -- inner raised the timeout: propagate without restoring
      rename_i e3 s3 heq
      cases e3
      rw [heq] at hrec2
      obtain ⟨hwf3, _, _, herr⟩ := hrec2
      obtain ⟨hbi3, k, hk1, hk2, hk3⟩ := herr rfl
      rw [hA2] at hk2
      exact ⟨hwf3, by simp, by simp, fun _ => ⟨hbi3, k, by omega, hk2, hk3⟩⟩

theorem inv_rec (oracle : Nat → Bool) : ∀ (fuel : Nat) (s : KnightsTour)
    (x y m : Int) (d : Nat), RecHyp s m →
    area s + 3 ≤ (fuel : Int) + m →
    RecOut s m (solve_recursive oracle fuel s x y m d).1
      (solve_recursive oracle fuel s x y m d).2 := by
  intro fuel
  induction fuel with
  | zero =>
    intro s x y m d hyp hfuel
    obtain ⟨hwf, hbd, hbi, hm2, hmA, hc1, hc2⟩ := hyp
    exfalso
    have h0 : ((0 : Nat) : Int) = 0 := rfl
    rw [h0] at hfuel
    omega
  | succ f ih =>
    intro s x y m d hyp hfuel
    obtain ⟨hwf, hbd, hbi, hm2, hmA, hc1, hc2⟩ := hyp
    simp only [solve_recursive]
    by_cases ho : oracle s.total_attempts = true
    · rw [if_pos ho]
      exact ⟨hwf, by simp, by simp, fun _ => ⟨hbi, m, le_rfl, hmA, hbd⟩⟩
    · rw [if_neg ho]
      by_cases hterm : m = (s.height : Int) * (s.width : Int) + 1
      · rw [if_pos hterm]
        have hterm' : m = area s + 1 := hterm
        refine ⟨hwf, fun _ => ⟨?_, hbi, fun hle => ?_, fun _ => ⟨rfl, rfl, rfl⟩⟩,
          by simp, by simp⟩
        · show visitedVals s.board = pathVals (area s + 1)
          rw [hbd, hterm']
        · omega
      · rw [if_neg hterm]
        have hterm' : ¬m = area s + 1 := hterm
        set s1 := { s with max_depth := max s.max_depth d, total_attempts := s.total_attempts + 1 } with hs1
        have hA1 : area s1 = area s := rfl
        have htry := inv_try
          (fun s' nx ny => solve_recursive oracle f s' nx ny (m + 1) (d + 1))
          m (area s)
          (fun s' nx ny hA' hyp' => ih s' nx ny (m + 1) (d + 1) hyp'
            (by rw [hA']; push_cast at hfuel; omega))
          (fun s' nx ny => struct_rec oracle f s' nx ny (m + 1) (d + 1))
          (get_possible_moves s1 x y) s1 hA1
          ⟨hwf, hbd, hbi, hm2,
           (show m ≤ area s1 by rw [hA1]; omega),
           (show s1.best_moves_count < area s1 by rw [hA1]; exact hc1 (by omega)),
           movesSafe_get_possible s1 x y⟩
        obtain ⟨o1, o2, o3, o4⟩ := htry
        refine ⟨o1, fun h => ?_, fun h => ?_, fun h => ?_⟩
        · obtain ⟨p1, p2, p3, p4⟩ := o2 h
          rw [hA1] at p1 p3
          exact ⟨p1, p2, fun _ => ⟨p3, p4⟩, fun habs => absurd habs hterm'⟩
        · obtain ⟨p1, p2, p3⟩ := o3 h
          rw [hA1] at p3
          exact ⟨p1, p2, p3⟩
        · obtain ⟨p1, k, p2, p3, p4⟩ := o4 h
          rw [hA1] at p3
          exact ⟨p1, k, by omega, p3, p4⟩

/-! ## Facts about the freshly initialised solver and the top-level `solve` -/

theorem filter_replicate_unvisited (k : Nat) :
    (List.replicate k UNVISITED).filter (fun x => x ≠ UNVISITED) = [] := by
  induction k with
  | zero => rfl
  | succ i ih => simp [List.replicate_succ, List.filter_cons, ih]

theorem visitedVals_unvisited (n k : Nat) :
    visitedVals (List.replicate n (List.replicate k UNVISITED)) = 0 := by
  induction n with
  | zero => rfl
  | succ i ih =>
    rw [List.replicate_succ, visitedVals_cons, ih, filter_replicate_unvisited]
    rfl

theorem wf_fresh (h w : Int) : Wf (fresh h w) := by
  refine ⟨by simp [fresh], ?_, by simp [fresh], ?_⟩ <;>
    · intro row hrow
      rw [List.eq_of_mem_replicate hrow]
      simp [fresh]

theorem bestInv_fresh (h w : Int) : BestInv (fresh h w) :=
  Or.inl ⟨rfl, visitedVals_unvisited h.toNat w.toNat⟩

theorem getD_replicate {α : Type} (n : Nat) (a d : α) : ∀ i : Nat,
    (List.replicate n a).getD i d = if i < n then a else d := by
  induction n with
  | zero => intro i; simp
  | succ k ih =>
    intro i
    cases i with
    | zero => simp [List.replicate_succ]
    | succ j =>
      rw [List.replicate_succ, List.getD_cons_succ, ih j]
      simp [Nat.succ_lt_succ_iff]

theorem getCell_fresh (h w x y : Int) :
    getCell (fresh h w).board x y = UNVISITED := by
  show getCell (List.replicate h.toNat (List.replicate w.toNat UNVISITED)) x y
    = UNVISITED
  unfold getCell
  rw [getD_replicate]
  split
  · rw [getD_replicate]; split <;> rfl
  · rfl

theorem update_best_noop {s : KnightsTour} {m : Int}
    (hc : ¬m > s.best_moves_count) : update_best_state s m = s := by
  unfold update_best_state; rw [if_neg hc]

/-- Master case analysis of `solve` on a freshly constructed solver: the
range check passes, and the three outcomes of the recursive search translate
into the final returned state. -/
theorem solve_cases (oracle : Nat → Bool) (h w sx sy : Int)
    (h3 : 3 ≤ h) (w3 : 3 ≤ w)
    (hx0 : 0 ≤ sx) (hxh : sx < h) (hy0 : 0 ≤ sy) (hyw : sy < w) :
    (∃ b : Bool, (solve oracle (fresh h w) sx sy).1 = Except.ok b) ∧
    Wf (solve oracle (fresh h w) sx sy).2 ∧
    BestInv (solve oracle (fresh h w) sx sy).2 ∧
    ((solve oracle (fresh h w) sx sy).1 = Except.ok true →
      (solve oracle (fresh h w) sx sy).2.timeout_occurred = false ∧
      (solve oracle (fresh h w) sx sy).2.best_moves_count = h * w ∧
      (solve oracle (fresh h w) sx sy).2.best_board
        = (solve oracle (fresh h w) sx sy).2.board ∧
      visitedVals (solve oracle (fresh h w) sx sy).2.board = pathVals (h * w + 1)) ∧
    ((solve oracle (fresh h w) sx sy).1 = Except.ok false →
      ((solve oracle (fresh h w) sx sy).2.timeout_occurred = false →
        (solve oracle (fresh h w) sx sy).2.board
          = setCell (fresh h w).board sx sy START_POSITION ∧
        (solve oracle (fresh h w) sx sy).2.best_moves_count < h * w)) := by
  have hbounds : 0 ≤ sx ∧ sx < ((fresh h w).height : Int) ∧ 0 ≤ sy ∧
      sy < ((fresh h w).width : Int) := by
    refine ⟨hx0, ?_, hy0, ?_⟩
    · show sx < (h.toNat : Int); omega
    · show sy < (w.toNat : Int); omega
  simp only [solve]
  rw [if_pos hbounds]
  set s1 := { fresh h w with board := setCell (fresh h w).board sx sy START_POSITION } with hs1
  rw [update_best_noop (show ¬START_POSITION > s1.best_moves_count by
    have hb1 : s1.best_moves_count = 1 := rfl
    unfold START_POSITION
    omega)]
  have hsp : START_POSITION + 1 = (2 : Int) := rfl
  rw [hsp]
  have hth : (h.toNat : Int) = h := Int.toNat_of_nonneg (by omega)
  have htw : (w.toNat : Int) = w := Int.toNat_of_nonneg (by omega)
  have harea : area s1 = h * w := by
    show (h.toNat : Int) * (w.toNat : Int) = h * w
    rw [hth, htw]
  have hblen : (fresh h w).board.length = h.toNat := by
    show (List.replicate h.toNat (List.replicate w.toNat UNVISITED)).length = h.toNat
    simp
  have hxlen : sx.toNat < (fresh h w).board.length := by rw [hblen]; omega
  have hrowlen : ((fresh h w).board.getD sx.toNat []).length = w.toNat :=
    (wf_fresh h w).2.1 ((fresh h w).board.getD sx.toNat [])
      (getD_mem (fresh h w).board sx.toNat [] hxlen)
  have hylen : sy.toNat < ((fresh h w).board.getD sx.toNat []).length := by
    rw [hrowlen]; omega
  have hwf1 : Wf s1 := by
    refine ⟨?_, ?_, (wf_fresh h w).2.2.1, (wf_fresh h w).2.2.2⟩
    · show (setCell (fresh h w).board sx sy START_POSITION).length = (fresh h w).height
      rw [length_setCell]; exact (wf_fresh h w).1
    · exact rows_setCell _ _ _ _ _ (wf_fresh h w).2.1 hxlen
  have hvis1 : visitedVals s1.board = pathVals 2 := by
    show visitedVals (setCell (fresh h w).board sx sy START_POSITION) = pathVals 2
    rw [visitedVals_setCell_add _ _ _ _ hxlen hylen (getCell_fresh h w sx sy)
      (by unfold START_POSITION UNVISITED; omega)]
    have hzero : visitedVals (fresh h w).board = 0 := visitedVals_unvisited _ _
    rw [hzero, zero_add]
    rfl
  have hbi1 : BestInv s1 := bestInv_fresh h w
  have hb1 : s1.best_moves_count = 1 := rfl
  have h9 : 9 ≤ h * w := by nlinarith
  have hRecHyp : RecHyp s1 2 := by
    refine ⟨hwf1, hvis1, hbi1, le_rfl, ?_, fun _ => ?_, fun habs => ?_⟩
    · rw [harea]; omega
    · rw [harea, hb1]; omega
    · exfalso; rw [harea] at habs; omega
  have hfuelb : area s1 + 3 ≤ ((s1.height * s1.width + 1 : Nat) : Int) + 2 := by
    have hcast : ((s1.height * s1.width + 1 : Nat) : Int) = area s1 + 1 := by
      push_cast [area]; ring
    rw [hcast]
    omega
  have hrec := inv_rec oracle (s1.height * s1.width + 1) s1 sx sy 2 0 hRecHyp hfuelb
  have hstru := struct_rec oracle (s1.height * s1.width + 1) s1 sx sy 2 0
  have hflag1 : s1.timeout_occurred = false := rfl
  split
  · rename_i b3 s3 heq
    rw [heq] at hrec hstru
    obtain ⟨hwf3, htrue, hfalse, _⟩ := hrec
    have hflag3 : s3.timeout_occurred = false :=
      (hstru.2.2.2.2.2.2.1 b3 rfl).trans hflag1
    cases b3 with
    | true =>
      refine ⟨⟨true, rfl⟩, hwf3, (htrue rfl).2.1, fun _ => ?_, by simp⟩
      obtain ⟨hv3, _, hcondA, _⟩ := htrue rfl
      obtain ⟨hbest3, hbb3⟩ := hcondA (by rw [harea]; omega)
      rw [harea] at hv3 hbest3
      exact ⟨hflag3, hbest3, hbb3, hv3⟩
    | false =>
      obtain ⟨hb3, hbi3, hlt3⟩ := hfalse rfl
      rw [harea] at hlt3
      refine ⟨⟨false, rfl⟩, hwf3, hbi3, by simp, fun _ _ => ⟨hb3, hlt3⟩⟩
  · rename_i e3 s3 heq
    cases e3
    rw [heq] at hrec hstru
    obtain ⟨hwf3, _, _, herr⟩ := hrec
    obtain ⟨hbi3, _, _, _, _⟩ := herr rfl
    have hflag3 : s3.timeout_occurred = true := hstru.2.2.2.2.2.2.2 rfl
    refine ⟨⟨false, rfl⟩, hwf3, hbi3, by simp, fun _ hff => ?_⟩
    rw [hflag3] at hff
    cases hff

/-! ## Claim theorems -/

/-- C3: constructing a solver with `height < 3` or `width < 3` fails fast
with a configuration error (the `raise` happens before any board is built,
so the error branch carries no state), and calling `solve` with an
out-of-range start position returns the range error with the solver state
unchanged: board, best state and statistics are exactly as before. -/
theorem claim_C3 (h w : Int) (hdim : h < 3 ∨ w < 3) (s : KnightsTour)
    (sx sy : Int) (oracle : Nat → Bool)
    (hoob : ¬(0 ≤ sx ∧ sx < (s.height : Int) ∧ 0 ≤ sy ∧ sy < (s.width : Int))) :
    mkSolver h w = Except.error "Wymiary planszy musza byc >= 3x3" ∧
    solve oracle s sx sy = (Except.error "Pozycja startowa poza plansza", s) := by
  constructor
  · unfold mkSolver; rw [if_pos hdim]
  · unfold solve; rw [if_neg hoob]

theorem claim_C3_witness :
    mkSolver 2 5 = Except.error "Wymiary planszy musza byc >= 3x3" ∧
    solve (fun _ => false) (fresh 3 3) 5 0
      = (Except.error "Pozycja startowa poza plansza", fresh 3 3) :=
  claim_C3 2 5 (Or.inl (by norm_num)) (fresh 3 3) 5 0 (fun _ => false) (by decide)

instance : DecidableRel (fun (a b : Int × Int × Int) => a.1 ≤ b.1) :=
  fun a b => inferInstanceAs (Decidable (a.1 ≤ b.1))

/-- For the refutation of C1's tie-break clause: the candidate list sorted
by degree alone with a stable sort, which keeps equal-degree candidates in
the iteration order of the fixed offset list — what the spec sentence
describes.  The code instead sorts whole `(degree, next_x, next_y)` tuples. -/
def get_possible_moves_offsetTie (s : KnightsTour) (x y : Int) :
    List (Int × Int × Int) :=
  List.insertionSort (fun a b => a.1 ≤ b.1) (rawMoves s x y)

/-- C1 counterexample: on a fresh 5×5 board at position (0,0) the two safe
candidates (1,2) and (2,1) have equal degree 6.  The offset list generates
(2,1) first (offset `(2,1)` precedes `(1,2)`), so the claimed tie-break
would put `(6,2,1)` first; the code's tuple sort puts `(6,1,2)` first. -/
theorem claim_C1_counterexample :
    get_possible_moves (fresh 5 5) 0 0 = [(6, 1, 2), (6, 2, 1)] ∧
    get_possible_moves_offsetTie (fresh 5 5) 0 0 = [(6, 2, 1), (6, 1, 2)] ∧
    get_possible_moves (fresh 5 5) 0 0
      ≠ get_possible_moves_offsetTie (fresh 5 5) 0 0 :=
  ⟨by decide, by decide, by decide⟩

/-- C1 (amended): for every board state and in-bounds position,
`get_possible_moves` returns exactly the safe candidates among the 8 knight
offsets, each paired with its onward degree, sorted ascending
lexicographically by the whole `(degree, next_x, next_y)` tuple (Python's
`sorted` on tuples) — ties in degree are broken by candidate coordinates,
not by offset-list order. -/
theorem claim_C1 (s : KnightsTour) (x y : Int)
    (hx : 0 ≤ x) (hxh : x < (s.height : Int))
    (hy : 0 ≤ y) (hyw : y < (s.width : Int)) :
    List.Sorted tripleLe (get_possible_moves s x y) ∧
    (get_possible_moves s x y).Perm (rawMoves s x y) ∧
    (∀ deg nx ny : Int, (deg, nx, ny) ∈ get_possible_moves s x y ↔
      ∃ d ∈ KNIGHT_MOVES, nx = x + d.1 ∧ ny = y + d.2 ∧ is_safe s nx ny ∧
        deg = count_onward_moves s nx ny) := by
  refine ⟨List.sorted_insertionSort tripleLe _,
    List.perm_insertionSort tripleLe _, ?_⟩
  intro deg nx ny
  constructor
  · intro hmem
    obtain ⟨hsafe, hdeg, d, hd, h1, h2⟩ := mem_get_possible_moves hmem
    exact ⟨d, hd, h1, h2, hsafe, hdeg⟩
  · rintro ⟨d, hd, rfl, rfl, hsafe, rfl⟩
    rw [get_possible_moves, List.mem_insertionSort, rawMoves, List.mem_filterMap]
    exact ⟨d, hd, by rw [if_pos hsafe]⟩

theorem claim_C1_witness :
    List.Sorted tripleLe (get_possible_moves (fresh 5 5) 0 0) ∧
    (get_possible_moves (fresh 5 5) 0 0).Perm (rawMoves (fresh 5 5) 0 0) ∧
    (∀ deg nx ny : Int, (deg, nx, ny) ∈ get_possible_moves (fresh 5 5) 0 0 ↔
      ∃ d ∈ KNIGHT_MOVES, nx = 0 + d.1 ∧ ny = 0 + d.2 ∧
        is_safe (fresh 5 5) nx ny ∧
        deg = count_onward_moves (fresh 5 5) nx ny) :=
  claim_C1 (fresh 5 5) 0 0 (by norm_num) (by decide) (by norm_num) (by decide)

instance {ε α : Type} [DecidableEq ε] [DecidableEq α] :
    DecidableEq (Except ε α) := fun x y =>
  match x, y with
  | Except.ok a, Except.ok b =>
    if h : a = b then isTrue (congrArg Except.ok h)
    else isFalse (fun hc => h (Except.ok.inj hc))
  | Except.error a, Except.error b =>
    if h : a = b then isTrue (congrArg Except.error h)
    else isFalse (fun hc => h (Except.error.inj hc))
  | Except.ok _, Except.error _ => isFalse (fun hc => Except.noConfusion hc)
  | Except.error _, Except.ok _ => isFalse (fun hc => Except.noConfusion hc)

/-- C9: on a 3×3 board, from every in-bounds start position, `solve` with a
timeout that never fires returns `false` and the best move count stays
strictly below 9 (the 3×3 board is untourable). -/
theorem claim_C9 (sx sy : Int) (hx0 : 0 ≤ sx) (hxh : sx < 3)
    (hy0 : 0 ≤ sy) (hyw : sy < 3) :
    (solve (fun _ => false) (fresh 3 3) sx sy).1 = Except.ok false ∧
    (solve (fun _ => false) (fresh 3 3) sx sy).2.best_moves_count < 9 := by
  interval_cases sx <;> interval_cases sy <;> exact ⟨by decide, by decide⟩

theorem claim_C9_witness :
    (solve (fun _ => false) (fresh 3 3) 0 0).1 = Except.ok false ∧
    (solve (fun _ => false) (fresh 3 3) 0 0).2.best_moves_count < 9 :=
  claim_C9 0 0 (by norm_num) (by norm_num) (by norm_num) (by norm_num)

/-- C2: on a freshly constructed valid solver with an in-bounds start,
`solve` returns `true` exactly when a complete tour was found before
exhaustion or timeout — formalised through the observable state: `true` iff
no timeout was flagged and the recorded best count reached `height*width`;
and on success the recorded best board is the final working board, a
complete tour holding every move number `1..height*width` exactly once. -/
theorem claim_C2 (oracle : Nat → Bool) (h w sx sy : Int) (r : Bool)
    (t : KnightsTour) (h3 : 3 ≤ h) (w3 : 3 ≤ w)
    (hx0 : 0 ≤ sx) (hxh : sx < h) (hy0 : 0 ≤ sy) (hyw : sy < w)
    (hres : solve oracle (fresh h w) sx sy = (Except.ok r, t)) :
    (r = true ↔ t.timeout_occurred = false ∧ t.best_moves_count = h * w) ∧
    (r = true → t.best_moves_count = h * w ∧ t.best_board = t.board ∧
      visitedVals t.best_board = pathVals (h * w + 1)) := by
  obtain ⟨_, _, _, htrue, hfalse⟩ :=
    solve_cases oracle h w sx sy h3 w3 hx0 hxh hy0 hyw
  rw [hres] at htrue hfalse
  simp only at htrue hfalse
  constructor
  · constructor
    · intro hr
      subst hr
      obtain ⟨f1, f2, _, _⟩ := htrue rfl
      exact ⟨f1, f2⟩
    · rintro ⟨hf, hbest⟩
      by_contra hrne
      have hrf : r = false := by
        cases r
        · rfl
        · exact absurd rfl hrne
      subst hrf
      obtain ⟨_, hlt⟩ := hfalse rfl hf
      omega
  · intro hr
    subst hr
    obtain ⟨_, f2, f3, f4⟩ := htrue rfl
    refine ⟨f2, f3, ?_⟩
    rw [f3, f4]

theorem claim_C2_witness :
    ¬((solve (fun _ => false) (fresh 3 3) 0 0).2.timeout_occurred = false ∧
      (solve (fun _ => false) (fresh 3 3) 0 0).2.best_moves_count = 3 * 3) := by
  intro hc
  have hres : solve (fun _ => false) (fresh 3 3) 0 0
      = (Except.ok false, (solve (fun _ => false) (fresh 3 3) 0 0).2) :=
    Prod.ext_iff.mpr ⟨by decide, rfl⟩
  have hiff := (claim_C2 (fun _ => false) 3 3 0 0 false
    (solve (fun _ => false) (fresh 3 3) 0 0).2 (by norm_num) (by norm_num)
    (by norm_num) (by norm_num) (by norm_num) (by norm_num) hres).1
  have := hiff.mpr hc
  cases this

/-- C10: from a start position with no safe onward knight move (for example
the centre of a 3×3 board), `solve` returns `false`, the best move count
stays at its initial value 1, and the best board is still the untouched
all-`UNVISITED` board of the fresh solver — the start placement itself is
never copied into the best state, because `update_best_state` requires a
strict improvement over the initial `moves_count` of 1. -/
theorem claim_C10 (oracle : Nat → Bool) (h w sx sy : Int)
    (h3 : 3 ≤ h) (w3 : 3 ≤ w)
    (hx0 : 0 ≤ sx) (hxh : sx < h) (hy0 : 0 ≤ sy) (hyw : sy < w)
    (hnomoves : get_possible_moves
      { fresh h w with board := setCell (fresh h w).board sx sy START_POSITION }
      sx sy = []) :
    (solve oracle (fresh h w) sx sy).1 = Except.ok false ∧
    (solve oracle (fresh h w) sx sy).2.best_moves_count = 1 ∧
    (solve oracle (fresh h w) sx sy).2.best_board = (fresh h w).best_board ∧
    (∀ i j : Int,
      getCell (solve oracle (fresh h w) sx sy).2.best_board i j = UNVISITED) := by
  have hbounds : 0 ≤ sx ∧ sx < ((fresh h w).height : Int) ∧ 0 ≤ sy ∧
      sy < ((fresh h w).width : Int) := by
    refine ⟨hx0, ?_, hy0, ?_⟩
    · show sx < (h.toNat : Int); omega
    · show sy < (w.toNat : Int); omega
  simp only [solve]
  rw [if_pos hbounds]
  set s1 := { fresh h w with board := setCell (fresh h w).board sx sy START_POSITION } with hs1
  rw [update_best_noop (show ¬START_POSITION > s1.best_moves_count by
    have hb1 : s1.best_moves_count = 1 := rfl
    unfold START_POSITION
    omega)]
  have hth : (h.toNat : Int) = h := Int.toNat_of_nonneg (by omega)
  have htw : (w.toNat : Int) = w := Int.toNat_of_nonneg (by omega)
  have h9 : 9 ≤ h * w := by nlinarith
  have hfs : s1.height * s1.width + 1 = (s1.height * s1.width) + 1 := rfl
  rw [hfs]
  simp only [solve_recursive]
  by_cases ho : oracle s1.total_attempts = true
  · rw [if_pos ho]
    refine ⟨rfl, rfl, rfl, fun i j => ?_⟩
    exact getCell_fresh h w i j
  · rw [if_neg ho]
    rw [if_neg (show ¬START_POSITION + 1 = (s1.height : Int) * (s1.width : Int) + 1 by
      show ¬(1 + 1 : Int) = (h.toNat : Int) * (w.toNat : Int) + 1
      rw [hth, htw]
      omega)]
    rw [show get_possible_moves { s1 with max_depth := max s1.max_depth 0, total_attempts := s1.total_attempts + 1 } sx sy = [] from hnomoves]
    simp only [try_moves]
    exact ⟨by trivial, by trivial, by trivial, fun i j => getCell_fresh h w i j⟩

theorem claim_C10_witness :
    (solve (fun _ => false) (fresh 3 3) 1 1).1 = Except.ok false ∧
    (solve (fun _ => false) (fresh 3 3) 1 1).2.best_moves_count = 1 ∧
    (solve (fun _ => false) (fresh 3 3) 1 1).2.best_board = (fresh 3 3).best_board ∧
    (∀ i j : Int,
      getCell (solve (fun _ => false) (fresh 3 3) 1 1).2.best_board i j = UNVISITED) :=
  claim_C10 (fun _ => false) 3 3 1 1 (by norm_num) (by norm_num) (by norm_num)
    (by norm_num) (by norm_num) (by norm_num) (by decide)

/-- The state `solve` hands to `solve_recursive` (fresh board with the start
cell marked) satisfies the search invariant at move number 2. -/
theorem start_facts (h w sx sy : Int) (h3 : 3 ≤ h) (w3 : 3 ≤ w)
    (hx0 : 0 ≤ sx) (hxh : sx < h) (hy0 : 0 ≤ sy) (hyw : sy < w) :
    RecHyp { fresh h w with
      board := setCell (fresh h w).board sx sy START_POSITION } 2 ∧
    area { fresh h w with
      board := setCell (fresh h w).board sx sy START_POSITION } = h * w := by
  have hth : (h.toNat : Int) = h := Int.toNat_of_nonneg (by omega)
  have htw : (w.toNat : Int) = w := Int.toNat_of_nonneg (by omega)
  have h9 : 9 ≤ h * w := by nlinarith
  have harea : area { fresh h w with
      board := setCell (fresh h w).board sx sy START_POSITION } = h * w := by
    show (h.toNat : Int) * (w.toNat : Int) = h * w
    rw [hth, htw]
  have hblen : (fresh h w).board.length = h.toNat := by
    show (List.replicate h.toNat (List.replicate w.toNat UNVISITED)).length = h.toNat
    simp
  have hxlen : sx.toNat < (fresh h w).board.length := by rw [hblen]; omega
  have hrowlen : ((fresh h w).board.getD sx.toNat []).length = w.toNat :=
    (wf_fresh h w).2.1 ((fresh h w).board.getD sx.toNat [])
      (getD_mem (fresh h w).board sx.toNat [] hxlen)
  have hylen : sy.toNat < ((fresh h w).board.getD sx.toNat []).length := by
    rw [hrowlen]; omega
  have hwf1 : Wf { fresh h w with
      board := setCell (fresh h w).board sx sy START_POSITION } := by
    refine ⟨?_, ?_, (wf_fresh h w).2.2.1, (wf_fresh h w).2.2.2⟩
    · show (setCell (fresh h w).board sx sy START_POSITION).length = (fresh h w).height
      rw [length_setCell]; exact (wf_fresh h w).1
    · exact rows_setCell _ _ _ _ _ (wf_fresh h w).2.1 hxlen
  have hvis1 : visitedVals (setCell (fresh h w).board sx sy START_POSITION)
      = pathVals 2 := by
    rw [visitedVals_setCell_add _ _ _ _ hxlen hylen (getCell_fresh h w sx sy)
      (by unfold START_POSITION UNVISITED; omega)]
    have hzero : visitedVals (fresh h w).board = 0 := visitedVals_unvisited _ _
    rw [hzero, zero_add]
    rfl
  refine ⟨⟨hwf1, hvis1, bestInv_fresh h w, le_rfl, ?_, fun _ => ?_, fun habs => ?_⟩,
    harea⟩
  · rw [harea]; omega
  · show (1 : Int) < _
    rw [harea]; omega
  · exfalso; rw [harea] at habs; omega

/-- C4: a `solve` run on a fresh solver that fails distinguishes its two
failure modes through the stats flag.  If the recursive search raised the
timeout (`Except.error`), `solve` catches it and returns `false`, the whole
search unwinds, `timeout_occurred` is set, and the best-partial state is
still valid.  If the search exhausted its candidates (`Except.ok false`),
`solve` returns `false` with `timeout_occurred` still `false`, a valid best
state, and a best count strictly below `height*width`. -/
theorem claim_C4 (oracle : Nat → Bool) (h w sx sy : Int)
    (h3 : 3 ≤ h) (w3 : 3 ≤ w)
    (hx0 : 0 ≤ sx) (hxh : sx < h) (hy0 : 0 ≤ sy) (hyw : sy < w)
    (r3 : Except Unit Bool) (s3 : KnightsTour)
    (hinner :
      solve_recursive oracle
        ((update_best_state { fresh h w with
            board := setCell (fresh h w).board sx sy START_POSITION }
            START_POSITION).height *
          (update_best_state { fresh h w with
            board := setCell (fresh h w).board sx sy START_POSITION }
            START_POSITION).width + 1)
        (update_best_state { fresh h w with
            board := setCell (fresh h w).board sx sy START_POSITION }
            START_POSITION)
        sx sy (START_POSITION + 1) 0 = (r3, s3)) :
    (r3 = Except.error () →
      solve oracle (fresh h w) sx sy = (Except.ok false, s3) ∧
      s3.timeout_occurred = true ∧ BestInv s3) ∧
    (r3 = Except.ok false →
      solve oracle (fresh h w) sx sy = (Except.ok false, s3) ∧
      s3.timeout_occurred = false ∧ BestInv s3 ∧
      s3.best_moves_count < h * w) := by
  have hbounds : 0 ≤ sx ∧ sx < ((fresh h w).height : Int) ∧ 0 ≤ sy ∧
      sy < ((fresh h w).width : Int) := by
    refine ⟨hx0, ?_, hy0, ?_⟩
    · show sx < (h.toNat : Int); omega
    · show sy < (w.toNat : Int); omega
  obtain ⟨hrechyp, harea⟩ := start_facts h w sx sy h3 w3 hx0 hxh hy0 hyw
  set s1 := { fresh h w with board := setCell (fresh h w).board sx sy START_POSITION } with hs1
  have hnoop : update_best_state s1 START_POSITION = s1 :=
    update_best_noop (show ¬START_POSITION > s1.best_moves_count by
      have hb1 : s1.best_moves_count = 1 := rfl
      unfold START_POSITION
      omega)
  rw [hnoop] at hinner
  have hsp : START_POSITION + 1 = (2 : Int) := rfl
  rw [hsp] at hinner
  have h9 : 9 ≤ h * w := by nlinarith
  have hfuelb : area s1 + 3 ≤ ((s1.height * s1.width + 1 : Nat) : Int) + 2 := by
    have hcast : ((s1.height * s1.width + 1 : Nat) : Int) = area s1 + 1 := by
      push_cast [area]; ring
    rw [hcast]
    omega
  have hrec := inv_rec oracle (s1.height * s1.width + 1) s1 sx sy 2 0 hrechyp hfuelb
  have hstru := struct_rec oracle (s1.height * s1.width + 1) s1 sx sy 2 0
  rw [hinner] at hrec hstru
  have hsolve : solve oracle (fresh h w) sx sy =
      match solve_recursive oracle (s1.height * s1.width + 1) s1 sx sy 2 0 with
      | (Except.ok b, t) => (Except.ok b, t)
      | (Except.error _, t) => (Except.ok false, t) := by
    simp only [solve]
    rw [if_pos hbounds, hnoop, hsp]
  rw [hinner] at hsolve
  obtain ⟨hwf3, _, hfalse, herr⟩ := hrec
  constructor
  · intro hre
    subst hre
    refine ⟨hsolve, hstru.2.2.2.2.2.2.2 rfl, (herr rfl).1⟩
  · intro hre
    subst hre
    obtain ⟨_, hbi3, hlt3⟩ := hfalse rfl
    rw [harea] at hlt3
    refine ⟨hsolve, ?_, hbi3, hlt3⟩
    have := hstru.2.2.2.2.2.2.1 false rfl
    rw [this]
    rfl

theorem claim_C4_witness :
    solve (fun _ => true) (fresh 3 3) 0 0
      = (Except.ok false,
        (solve_recursive (fun _ => true)
          ((update_best_state { fresh 3 3 with
              board := setCell (fresh 3 3).board 0 0 START_POSITION }
              START_POSITION).height *
            (update_best_state { fresh 3 3 with
              board := setCell (fresh 3 3).board 0 0 START_POSITION }
              START_POSITION).width + 1)
          (update_best_state { fresh 3 3 with
              board := setCell (fresh 3 3).board 0 0 START_POSITION }
              START_POSITION)
          0 0 (START_POSITION + 1) 0).2) ∧
    (solve_recursive (fun _ => true)
        ((update_best_state { fresh 3 3 with
            board := setCell (fresh 3 3).board 0 0 START_POSITION }
            START_POSITION).height *
          (update_best_state { fresh 3 3 with
            board := setCell (fresh 3 3).board 0 0 START_POSITION }
            START_POSITION).width + 1)
        (update_best_state { fresh 3 3 with
            board := setCell (fresh 3 3).board 0 0 START_POSITION }
            START_POSITION)
        0 0 (START_POSITION + 1) 0).2.timeout_occurred = true := by
  have h := claim_C4 (fun _ => true) 3 3 0 0 (by norm_num) (by norm_num)
    (by norm_num) (by norm_num) (by norm_num) (by norm_num)
    (Except.error ())
    (solve_recursive (fun _ => true)
      ((update_best_state { fresh 3 3 with
          board := setCell (fresh 3 3).board 0 0 START_POSITION }
          START_POSITION).height *
        (update_best_state { fresh 3 3 with
          board := setCell (fresh 3 3).board 0 0 START_POSITION }
          START_POSITION).width + 1)
      (update_best_state { fresh 3 3 with
          board := setCell (fresh 3 3).board 0 0 START_POSITION }
          START_POSITION)
      0 0 (START_POSITION + 1) 0).2
    (Prod.ext_iff.mpr ⟨by decide, rfl⟩)
  obtain ⟨he, _⟩ := h
  obtain ⟨h1, h2, _⟩ := he rfl
  exact ⟨h1, h2⟩

theorem mem_visitedVals {b : Board} {v : Int} :
    v ∈ visitedVals b ↔ v ∈ b.flatten ∧ v ≠ UNVISITED := by
  unfold visitedVals
  rw [Multiset.mem_coe, List.mem_filter]
  simp

/-- C6 counterexample: on a 3×3 board started at the centre (no knight move
is available), after `solve` the best count is 1, but the value 1 occurs
nowhere in the best board — the range `[1, bestMoveCount]` has a gap, so the
claim's "no gaps in the used range" fails as stated. -/
theorem claim_C6_counterexample :
    (solve (fun _ => false) (fresh 3 3) 1 1).2.best_moves_count = 1 ∧
    (1 : Int) ∉ (solve (fun _ => false) (fresh 3 3) 1 1).2.best_board.flatten :=
  ⟨by decide, by decide⟩

/-- C6 (amended): after any `solve` call on a fresh solver, either the best
state was never updated (best count still 1 and the best board entirely
`UNVISITED`), or the visited values of the best board are exactly
`1..bestMoveCount`: every value is `UNVISITED` or lies in
`[1, bestMoveCount]`, no value occurs twice, and — whenever the best state
was updated at least once — every integer in `[1, bestMoveCount]` occurs. -/
theorem claim_C6 (oracle : Nat → Bool) (h w sx sy : Int) (r : Bool)
    (t : KnightsTour) (h3 : 3 ≤ h) (w3 : 3 ≤ w)
    (hx0 : 0 ≤ sx) (hxh : sx < h) (hy0 : 0 ≤ sy) (hyw : sy < w)
    (hres : solve oracle (fresh h w) sx sy = (Except.ok r, t)) :
    ((t.best_moves_count = 1 ∧ visitedVals t.best_board = 0) ∨
      (2 ≤ t.best_moves_count ∧
        visitedVals t.best_board = pathVals (t.best_moves_count + 1))) ∧
    (∀ v ∈ t.best_board.flatten, v = UNVISITED ∨
      (1 ≤ v ∧ v ≤ t.best_moves_count)) ∧
    (visitedVals t.best_board).Nodup ∧
    (2 ≤ t.best_moves_count → ∀ k : Int, 1 ≤ k → k ≤ t.best_moves_count →
      k ∈ visitedVals t.best_board) := by
  obtain ⟨_, _, hbi, _, _⟩ := solve_cases oracle h w sx sy h3 w3 hx0 hxh hy0 hyw
  rw [hres] at hbi
  simp only at hbi
  refine ⟨hbi, ?_, ?_, ?_⟩
  · intro v hv
    by_cases hveq : v = UNVISITED
    · exact Or.inl hveq
    · right
      have hmem : v ∈ visitedVals t.best_board := mem_visitedVals.mpr ⟨hv, hveq⟩
      rcases hbi with ⟨_, hz⟩ | ⟨_, hp⟩
      · rw [hz] at hmem
        cases hmem
      · rw [hp] at hmem
        have := (mem_pathVals v (t.best_moves_count + 1)).mp hmem
        omega
  · rcases hbi with ⟨_, hz⟩ | ⟨_, hp⟩
    · rw [hz]
      exact Multiset.nodup_zero
    · rw [hp]
      exact nodup_pathVals _
  · intro h2 k hk1 hk2
    rcases hbi with ⟨he, _⟩ | ⟨_, hp⟩
    · omega
    · rw [hp]
      exact (mem_pathVals k (t.best_moves_count + 1)).mpr ⟨hk1, by omega⟩

theorem claim_C6_witness :
    (((solve (fun _ => false) (fresh 3 3) 0 0).2.best_moves_count = 1 ∧
      visitedVals (solve (fun _ => false) (fresh 3 3) 0 0).2.best_board = 0) ∨
      (2 ≤ (solve (fun _ => false) (fresh 3 3) 0 0).2.best_moves_count ∧
        visitedVals (solve (fun _ => false) (fresh 3 3) 0 0).2.best_board
          = pathVals ((solve (fun _ => false) (fresh 3 3) 0 0).2.best_moves_count + 1))) ∧
    (∀ v ∈ (solve (fun _ => false) (fresh 3 3) 0 0).2.best_board.flatten,
      v = UNVISITED ∨ (1 ≤ v ∧
        v ≤ (solve (fun _ => false) (fresh 3 3) 0 0).2.best_moves_count)) ∧
    (visitedVals (solve (fun _ => false) (fresh 3 3) 0 0).2.best_board).Nodup ∧
    (2 ≤ (solve (fun _ => false) (fresh 3 3) 0 0).2.best_moves_count →
      ∀ k : Int, 1 ≤ k →
        k ≤ (solve (fun _ => false) (fresh 3 3) 0 0).2.best_moves_count →
        k ∈ visitedVals (solve (fun _ => false) (fresh 3 3) 0 0).2.best_board) :=
  claim_C6 (fun _ => false) 3 3 0 0 false
    (solve (fun _ => false) (fresh 3 3) 0 0).2 (by norm_num) (by norm_num)
    (by norm_num) (by norm_num) (by norm_num) (by norm_num)
    (Prod.ext_iff.mpr ⟨by decide, rfl⟩)

/-- C7 counterexample, two leaks.  (1) Start-cell leak: on a 3×3 board
started at the centre the search exhausts without ever updating the best
state; the start cell is marked 1 on the working board but `UNVISITED` on
the recorded best board, so a working-board cell outside the best path is
visited.  (2) Timeout leak: on a 4×4 board from (0,0) with the clock
expiring at the 21st check, the `TimeoutError` unwinds without backtracking;
cell (3,0) of the working board holds move 10 but is `UNVISITED` in the best
board and is not the start cell. -/
theorem claim_C7_counterexample :
    ((solve (fun _ => false) (fresh 3 3) 1 1).2.timeout_occurred = false ∧
      getCell (solve (fun _ => false) (fresh 3 3) 1 1).2.board 1 1 = 1 ∧
      getCell (solve (fun _ => false) (fresh 3 3) 1 1).2.best_board 1 1
        = UNVISITED) ∧
    ((solve (fun n => decide (20 ≤ n)) (fresh 4 4) 0 0).2.timeout_occurred = true ∧
      getCell (solve (fun n => decide (20 ≤ n)) (fresh 4 4) 0 0).2.board 3 0 = 10 ∧
      getCell (solve (fun n => decide (20 ≤ n)) (fresh 4 4) 0 0).2.best_board 3 0
        = UNVISITED ∧
      ¬((3 : Int) = 0 ∧ (0 : Int) = 0)) :=
  ⟨⟨by decide, by decide, by decide⟩, ⟨by decide, by decide, by decide, by decide⟩⟩

/-- C7 (amended): after `solve` returns on a fresh solver, abandoned
branches leak no state **provided no timeout fired**: on success every cell
outside the recorded best path is `UNVISITED` on the working board (the best
board equals the working board), and on failure without timeout every
in-bounds cell other than the start cell is `UNVISITED`.  On timeout the
cells of the current partial path remain marked (see the counterexample). -/
theorem claim_C7 (oracle : Nat → Bool) (h w sx sy : Int) (r : Bool)
    (t : KnightsTour) (h3 : 3 ≤ h) (w3 : 3 ≤ w)
    (hx0 : 0 ≤ sx) (hxh : sx < h) (hy0 : 0 ≤ sy) (hyw : sy < w)
    (hres : solve oracle (fresh h w) sx sy = (Except.ok r, t)) :
    (r = true → ∀ i j : Int, getCell t.best_board i j = UNVISITED →
      getCell t.board i j = UNVISITED) ∧
    (r = false → t.timeout_occurred = false → ∀ i j : Int,
      0 ≤ i → i < h → 0 ≤ j → j < w → ¬(i = sx ∧ j = sy) →
      getCell t.board i j = UNVISITED) := by
  obtain ⟨_, _, _, htrue, hfalse⟩ :=
    solve_cases oracle h w sx sy h3 w3 hx0 hxh hy0 hyw
  rw [hres] at htrue hfalse
  simp only at htrue hfalse
  constructor
  · intro hr i j hbb
    subst hr
    obtain ⟨_, _, hbbeq, _⟩ := htrue rfl
    rw [← hbbeq]
    exact hbb
  · intro hr hflag i j hi0 hih hj0 hjw hne
    subst hr
    obtain ⟨hboard, _⟩ := hfalse rfl hflag
    rw [hboard]
    have hblen : (fresh h w).board.length = h.toNat := by
      show (List.replicate h.toNat (List.replicate w.toNat UNVISITED)).length
        = h.toNat
      simp
    have hxlen : sx.toNat < (fresh h w).board.length := by rw [hblen]; omega
    rw [getCell_setCell_ne (fresh h w).board sx sy i j START_POSITION hxlen
      (by omega)]
    exact getCell_fresh h w i j

theorem claim_C7_witness :
    getCell (solve (fun _ => false) (fresh 3 3) 0 0).2.board 2 2 = UNVISITED :=
  (claim_C7 (fun _ => false) 3 3 0 0 false
      (solve (fun _ => false) (fresh 3 3) 0 0).2 (by norm_num) (by norm_num)
      (by norm_num) (by norm_num) (by norm_num) (by norm_num)
      (Prod.ext_iff.mpr ⟨by decide, rfl⟩)).2 rfl (by decide) 2 2
    (by norm_num) (by norm_num) (by norm_num) (by norm_num) (by norm_num)

/-- C5 counterexample: the claim quantifies over *any* search started by
`solve`, but `solve` never clears the previous start cell.  After a first
`solve` at (0,0) on a 3×3 board, the second `solve` at the centre places a
second 1: right after that mutation (the state handed to the recursive
search) two distinct cells hold the value 1, so visited values are not
pairwise distinct and "exactly one cell holds 1" fails. -/
theorem claim_C5_counterexample :
    getCell (update_best_state
      { (solve (fun _ => false) (fresh 3 3) 0 0).2 with
        board := setCell (solve (fun _ => false) (fresh 3 3) 0 0).2.board 1 1
          START_POSITION } START_POSITION).board 0 0 = 1 ∧
    getCell (update_best_state
      { (solve (fun _ => false) (fresh 3 3) 0 0).2 with
        board := setCell (solve (fun _ => false) (fresh 3 3) 0 0).2.board 1 1
          START_POSITION } START_POSITION).board 1 1 = 1 ∧
    Multiset.count 1 (visitedVals (update_best_state
      { (solve (fun _ => false) (fresh 3 3) 0 0).2 with
        board := setCell (solve (fun _ => false) (fresh 3 3) 0 0).2.board 1 1
          START_POSITION } START_POSITION).board) = 2 :=
  ⟨by decide, by decide, by decide⟩

/-- C5 (amended): during any search whose entry state carries exactly the
moves `1..m-1` — as every search started by `solve` on a *freshly
constructed* solver does — the invariants hold after every mutation and
every restoration: placing move `m` on a safe cell yields exactly the values
`1..m`; the backtrack reset restores the board exactly; any board carrying
exactly `1..m-1` has pairwise-distinct visited values with exactly one cell
holding 1; and every state reachable at exit of the recursive search again
carries exactly `1..k-1` for some `k`. -/
theorem claim_C5 :
    (∀ (s : KnightsTour) (x y m : Int), Wf s →
      visitedVals s.board = pathVals m → 1 ≤ m → is_safe s x y →
      visitedVals (setCell s.board x y m) = pathVals (m + 1)) ∧
    (∀ (s : KnightsTour) (x y m : Int), Wf s → is_safe s x y →
      setCell (setCell s.board x y m) x y UNVISITED = s.board) ∧
    (∀ (m : Int) (b : Board), 2 ≤ m → visitedVals b = pathVals m →
      (visitedVals b).Nodup ∧ Multiset.count 1 (visitedVals b) = 1) ∧
    (∀ (oracle : Nat → Bool) (fuel : Nat) (s : KnightsTour) (x y m : Int)
      (d : Nat), RecHyp s m → area s + 3 ≤ (fuel : Int) + m →
      ∃ k, 2 ≤ k ∧ k ≤ area s + 1 ∧
        visitedVals (solve_recursive oracle fuel s x y m d).2.board
          = pathVals k) := by
  refine ⟨?_, ?_, ?_, ?_⟩
  · intro s x y m hwf hbd hm hsafe
    obtain ⟨hx0, hxh, hy0, hyw, hcell⟩ := hsafe
    have hxlen : x.toNat < s.board.length := by rw [hwf.1]; omega
    have hylen : y.toNat < (s.board.getD x.toNat []).length := by
      rw [hwf.2.1 _ (getD_mem _ _ _ hxlen)]; omega
    rw [visitedVals_setCell_add s.board x y m hxlen hylen hcell
      (by unfold UNVISITED; omega), hbd, ← pathVals_succ m hm]
  · intro s x y m hwf hsafe
    obtain ⟨hx0, hxh, hy0, hyw, hcell⟩ := hsafe
    have hxlen : x.toNat < s.board.length := by rw [hwf.1]; omega
    have hylen : y.toNat < (s.board.getD x.toNat []).length := by
      rw [hwf.2.1 _ (getD_mem _ _ _ hxlen)]; omega
    exact setCell_restore s.board x y m hxlen hylen hcell
  · intro m b hm hbd
    rw [hbd]
    exact ⟨nodup_pathVals m, count_one_pathVals m hm⟩
  · intro oracle fuel s x y m d hyp hfuel
    have hm2 : 2 ≤ m := hyp.2.2.2.1
    have hmA : m ≤ area s + 1 := hyp.2.2.2.2.1
    have hrec := inv_rec oracle fuel s x y m d hyp hfuel
    obtain ⟨_, htrue, hfalse, herr⟩ := hrec
    rcases hresult : (solve_recursive oracle fuel s x y m d).1 with e3 | b3
    · cases e3
      obtain ⟨_, k, hk1, hk2, hk3⟩ := herr hresult
      exact ⟨k, by omega, hk2, hk3⟩
    · cases b3
      · obtain ⟨hb, _, _⟩ := hfalse hresult
        refine ⟨m, hm2, by omega, ?_⟩
        · rw [hb]
          exact hyp.2.1
      · obtain ⟨hv, _, _, _⟩ := htrue hresult
        have h2A : 2 ≤ area s + 1 := by omega
        exact ⟨area s + 1, h2A, le_rfl, hv⟩

instance (s : KnightsTour) : Decidable (Wf s) := by
  unfold Wf; infer_instance

theorem claim_C5_witness :
    visitedVals (setCell { fresh 3 3 with
      board := setCell (fresh 3 3).board 0 0 1 }.board 1 2 2) = pathVals 3 :=
  claim_C5.1 { fresh 3 3 with board := setCell (fresh 3 3).board 0 0 1 } 1 2 2
    (by decide) (by decide) (by norm_num) (by decide)

/-- C8 counterexample: a second `solve` on the same instance is not
equivalent to a first `solve` on a fresh solver of the same size.  On a 3×3
board, after `solve` at (0,0) (which leaves best count 8 and the start cell
marked), a second `solve` at the centre still reports best count 8, whereas
a fresh solver solved at the centre reports best count 1. -/
theorem claim_C8_counterexample :
    (solve (fun _ => false) ((solve (fun _ => false) (fresh 3 3) 0 0).2) 1 1).2.best_moves_count = 8 ∧
    (solve (fun _ => false) (fresh 3 3) 1 1).2.best_moves_count = 1 ∧
    (8 : Int) ≠ 1 :=
  ⟨by decide, by decide, by decide⟩

/-- C8 (amended): a repeated `solve` call does not restart from scratch:
nothing is reset.  The best move count and the statistics carry over
monotonically from the state left by earlier calls (they never decrease, the
timeout flag is never cleared), so residue from an earlier call can affect a
second call's results. -/
theorem claim_C8 (oracle : Nat → Bool) (s : KnightsTour) (sx sy : Int) :
    s.best_moves_count ≤ (solve oracle s sx sy).2.best_moves_count ∧
    s.total_attempts ≤ (solve oracle s sx sy).2.total_attempts ∧
    s.backtracks ≤ (solve oracle s sx sy).2.backtracks ∧
    s.max_depth ≤ (solve oracle s sx sy).2.max_depth ∧
    ((solve oracle s sx sy).2.timeout_occurred = s.timeout_occurred ∨
      (solve oracle s sx sy).2.timeout_occurred = true) ∧
    (solve oracle s sx sy).2.height = s.height ∧
    (solve oracle s sx sy).2.width = s.width := by
  simp only [solve]
  by_cases hb : 0 ≤ sx ∧ sx < (s.height : Int) ∧ 0 ≤ sy ∧ sy < (s.width : Int)
  · rw [if_pos hb]
    set s2 := update_best_state
      { s with board := setCell s.board sx sy START_POSITION } START_POSITION
      with hs2
    have hstep : Step s s2 := step_place_update s _ _
    have hstru := struct_rec oracle (s2.height * s2.width + 1) s2 sx sy
      (START_POSITION + 1) 0
    split
    · rename_i b3 s3 heq
      rw [heq] at hstru
      obtain ⟨c1, c2, c3, c4, c5, c6, c7, c8⟩ := StructOut.of_step hstep hstru
      exact ⟨c6, c3, c4, c5, Or.inl (c7 b3 rfl), c1, c2⟩
    · rename_i e3 s3 heq
      rw [heq] at hstru
      obtain ⟨c1, c2, c3, c4, c5, c6, c7, c8⟩ := StructOut.of_step hstep hstru
      cases e3
      exact ⟨c6, c3, c4, c5, Or.inr (c8 rfl), c1, c2⟩
  · rw [if_neg hb]
    exact ⟨le_rfl, le_rfl, le_rfl, le_rfl, Or.inl rfl, rfl, rfl⟩
